import Mathlib

/-!
Verification of the Salesforce metadata-generation scripts
(`scripts/ts/createFieldsNLayouts.ts`, `scripts/ts/createFields.ts`,
`scripts/ts/updateLayouts.ts` and their revisions) against their
specification.

JavaScript strings are modelled as `List Char`; template-literal
interpolation becomes list concatenation.  JavaScript objects (records)
are modelled as insertion-ordered association lists.  File writes are
modelled by returning the written content; a thrown `Error` is modelled
by `Except.error`.
-/


/-- The model of a JavaScript string: a list of characters. -/
abbrev Str := List Char

/-- Embeds a Lean string literal into the model. -/
def lit (s : String) : Str := s.toList

/-!
### A small verified substring library

`splitAtFirst needle hay` models the search for the first occurrence of
`needle` in `hay`: it returns the part before and the part after the
first occurrence, or `none` when there is no occurrence.  It is the
common core of the models of `String.prototype.includes` and of
`String.prototype.replace` with a string pattern.
-/

/-- First-occurrence search: `some (pre, post)` with
`hay = pre ++ needle ++ post` splitting at the leftmost occurrence. -/
def splitAtFirst (needle hay : Str) : Option (Str × Str) :=
  if needle.isPrefixOf hay then some ([], hay.drop needle.length)
  else
    match hay with
    | [] => none
    | c :: rest => (splitAtFirst needle rest).map (fun pr => (c :: pr.1, pr.2))

/-- Models `hay.includes(needle)` from JavaScript. -/
def includes (hay needle : Str) : Bool := (splitAtFirst needle hay).isSome

/-- The backquote character, written by code to keep the source free of
raw backquotes. -/
def backquoteChar : Char := Char.ofNat 96

/-- The single-quote character, written by code for the same reason. -/
def singleQuoteChar : Char := Char.ofNat 39

/-- Models the GetSubstitution pass JavaScript applies to the
replacement string of `String.prototype.replace`: for a string pattern
(no capture groups) the recognised forms are a doubled dollar (a
literal dollar), dollar-ampersand (the matched text `m`),
dollar-backquote (the portion `p` before the match) and
dollar-single-quote (the portion `s` after the match); any other
dollar, including dollar-digit and dollar-angle forms, stays literal. -/
def getSubstitution (m p s : Str) : Str → Str
  | [] => []
  | ch :: rest =>
    if ch = '$' then
      match rest with
      | [] => [ch]
      | d :: rest2 =>
        if d = '$' then '$' :: getSubstitution m p s rest2
        else if d = '&' then m ++ getSubstitution m p s rest2
        else if d = backquoteChar then p ++ getSubstitution m p s rest2
        else if d = singleQuoteChar then s ++ getSubstitution m p s rest2
        else ch :: getSubstitution m p s (d :: rest2)
    else ch :: getSubstitution m p s rest

/-- Models `hay.replace(needle, repl)` for a string pattern: the first
occurrence is replaced by the replacement after JavaScript applies
GetSubstitution to it.  When `repl` contains no dollar character the
substitution pass is the identity. -/
def replaceFirst (hay needle repl : Str) : Str :=
  match splitAtFirst needle hay with
  | some (p, s) => p ++ getSubstitution needle p s repl ++ s
  | none => hay

/-- Models `s.endsWith(suf)` from JavaScript. -/
def endsWith (s suf : Str) : Bool := List.isSuffixOf suf s

/-!
### Name resolution (`getObjectDetails`, createFieldsNLayouts.ts lines 43-55)
-/

/-- The fixed allow-list of standard objects
(createFieldsNLayouts.ts line 38). -/
def STANDARD_OBJECTS : List Str :=
  [lit "Account", lit "Contact", lit "Opportunity", lit "Lead", lit "Case"]

/-- Models `getObjectDetails` (createFieldsNLayouts.ts lines 43-55, also
part_000 lines 44-56 and 646-658): returns `(apiName, folderName)`. -/
def getObjectDetails (objectName : Str) : Str × Str :=
  let isStandard := STANDARD_OBJECTS.contains objectName
  let hasSuffix := endsWith objectName (lit "__c")
  if !isStandard && !hasSuffix then
    (objectName ++ lit "__c", objectName ++ lit "__c")
  else (objectName, objectName)

/-!
### Field definitions (`createFields`)

The repository contains two Master-Detail-capable revisions of
`createFields` (both in part_000, a concatenation of revisions of
createFieldsNLayouts.ts):

* the earlier revision (part_000 lines 250-318), `compileFieldPrev`
  below, which always emits `<required>true/false</required>`;
* the final revision (part_000 lines 708-775), `compileField` below,
  which sets the required tag to the empty string for Master-Detail.

Both throw when a Lookup or Master-Detail field lacks `referenceTo`.
The per-field XML document (written to
`<fieldsDir>/<name>__c.field-meta.xml`) is modelled as the returned
string; a thrown `Error` is `Except.error` (the quote characters around
referenceTo in the original message text are omitted here).
-/

/-- The field type union (part_000 line 620). -/
inductive FieldType where
  | text | number | currency | checkbox | date | dateTime | email
  | percent | phone | url | textArea | lookup | masterDetail
deriving DecidableEq

/-- The string a `FieldType` denotes in the TypeScript union. -/
def fieldTypeStr : FieldType → Str
  | .text => lit "Text"
  | .number => lit "Number"
  | .currency => lit "Currency"
  | .checkbox => lit "Checkbox"
  | .date => lit "Date"
  | .dateTime => lit "DateTime"
  | .email => lit "Email"
  | .percent => lit "Percent"
  | .phone => lit "Phone"
  | .url => lit "Url"
  | .textArea => lit "TextArea"
  | .lookup => lit "Lookup"
  | .masterDetail => lit "Master-Detail"

/-- Models the `FieldDefinition` interface (part_000 lines 622-631);
optional members are `Option`, an absent member is `none`. -/
structure FieldDefinition where
  name : Str
  label : Option Str
  type : FieldType
  description : Option Str
  required : Option Bool
  referenceTo : Option Str
  relationshipLabel : Option Str
  relationshipName : Option Str

/-- JavaScript truthiness of a string-or-undefined value:
`undefined` and the empty string are falsy. -/
def jsTruthyStr : Option Str → Bool
  | some s => !s.isEmpty
  | none => false

/-- JavaScript truthiness of a boolean-or-undefined value. -/
def jsTruthyBool : Option Bool → Bool
  | some b => b
  | none => false

/-- Models `x || d` for a string-or-undefined `x`. -/
def jsOrStr (x : Option Str) (d : Str) : Str :=
  match x with
  | some s => if s.isEmpty then d else s
  | none => d

/-- Models template interpolation of a string-or-undefined value:
JavaScript renders `undefined` as the text "undefined". -/
def renderOptStr : Option Str → Str
  | some s => s
  | none => lit "undefined"

/-- Models `field.name.replace(/_/g, ' ')`. -/
def underscoreToSpace (s : Str) : Str :=
  s.map (fun c => if c = '_' then ' ' else c)

/-- Models `field.label ? field.label : field.name.replace(/_/g, ' ')`. -/
def labelOf (field : FieldDefinition) : Str :=
  match field.label with
  | some l => if l.isEmpty then underscoreToSpace field.name else l
  | none => underscoreToSpace field.name

/-- Models `field.description ? `<description>...</description>` : ''`. -/
def descriptionTagOf (field : FieldDefinition) : Str :=
  match field.description with
  | some d =>
    if d.isEmpty then [] else lit "<description>" ++ d ++ lit "</description>"
  | none => []

/-- The Lookup extra tags (part_000 lines 737-741). -/
def lookupTags (field : FieldDefinition) (label : Str) : Str :=
  lit "\n    <deleteConstraint>SetNull</deleteConstraint>\n    <referenceTo>" ++
  renderOptStr field.referenceTo ++
  lit "</referenceTo>\n    <relationshipLabel>" ++
  jsOrStr field.relationshipLabel label ++
  lit "</relationshipLabel>\n    <relationshipName>" ++
  jsOrStr field.relationshipName field.name ++
  lit "</relationshipName>"

/-- The Master-Detail extra tags (part_000 lines 753-758). -/
def masterDetailTags (field : FieldDefinition) (label : Str) : Str :=
  lit "\n    <writeRequiresMasterRead>false</writeRequiresMasterRead>\n    <reparentableMasterDetail>false</reparentableMasterDetail>\n    <referenceTo>" ++
  renderOptStr field.referenceTo ++
  lit "</referenceTo>\n    <relationshipLabel>" ++
  jsOrStr field.relationshipLabel label ++
  lit "</relationshipLabel>\n    <relationshipName>" ++
  jsOrStr field.relationshipName field.name ++
  lit "</relationshipName>"

/-- The field template of the final revision (part_000 lines 762-770):
the required slot holds whatever `requiredTag` was computed. -/
def assembleFieldXml (apiName label xmlType descTag reqTag extra : Str) : Str :=
  lit "<?xml version=\"1.0\" encoding=\"UTF-8\"?>\n<CustomField xmlns=\"http://soap.sforce.com/2006/04/metadata\">\n    <fullName>" ++
  apiName ++
  lit "</fullName>\n    <label>" ++
  label ++
  lit "</label>\n    <type>" ++
  xmlType ++
  lit "</type>\n    " ++
  descTag ++
  lit "\n    " ++
  reqTag ++
  lit "\n    " ++
  extra ++
  lit "\n</CustomField>"

/-- The initial value of `requiredTag` (part_000 line 719), before the
Master-Detail branch clears it. -/
def requiredTag0 (field : FieldDefinition) : Str :=
  lit "<required>" ++
  (if jsTruthyBool field.required then lit "true" else lit "false") ++
  lit "</required>"

/-- Models the per-field body of `createFields`, final revision
(part_000 lines 708-775): computes the emitted field document, or the
thrown error.  The Master-Detail branch replaces the required tag with
the empty string and the type tag with `MasterDetail`. -/
def compileField (field : FieldDefinition) : Except Str Str :=
  let apiName := field.name ++ lit "__c"
  let label := labelOf field
  let descTag := descriptionTagOf field
  let reqTag := requiredTag0 field
  match field.type with
  | .currency | .percent =>
    .ok (assembleFieldXml apiName label (fieldTypeStr field.type) descTag reqTag
      (lit "<precision>18</precision>\n    <scale>2</scale>"))
  | .number =>
    .ok (assembleFieldXml apiName label (fieldTypeStr field.type) descTag reqTag
      (lit "<precision>18</precision>\n    <scale>0</scale>"))
  | .text | .email | .url | .phone =>
    .ok (assembleFieldXml apiName label (fieldTypeStr field.type) descTag reqTag
      (lit "<length>255</length>"))
  | .checkbox | .date | .dateTime | .textArea =>
    .ok (assembleFieldXml apiName label (fieldTypeStr field.type) descTag reqTag [])
  | .lookup =>
    if !jsTruthyStr field.referenceTo then
      .error (lit "Field " ++ field.name ++ lit " is a Lookup but missing referenceTo.")
    else
      .ok (assembleFieldXml apiName label (fieldTypeStr field.type) descTag reqTag
        (lookupTags field label))
  | .masterDetail =>
    if !jsTruthyStr field.referenceTo then
      .error (lit "Field " ++ field.name ++ lit " is a Master-Detail but missing referenceTo.")
    else
      .ok (assembleFieldXml apiName label (lit "MasterDetail") descTag []
        (masterDetailTags field label))

/-- The field template of the earlier revision (part_000 lines 305-313):
the required tag is hard-coded into the template for every type. -/
def assembleFieldXmlPrev (apiName label xmlType descTag isRequired extra : Str) : Str :=
  lit "<?xml version=\"1.0\" encoding=\"UTF-8\"?>\n<CustomField xmlns=\"http://soap.sforce.com/2006/04/metadata\">\n    <fullName>" ++
  apiName ++
  lit "</fullName>\n    <label>" ++
  label ++
  lit "</label>\n    <type>" ++
  xmlType ++
  lit "</type>\n    " ++
  descTag ++
  lit "\n    <required>" ++
  isRequired ++
  lit "</required>\n    " ++
  extra ++
  lit "\n</CustomField>"

/-- Models the per-field body of `createFields`, earlier revision
(part_000 lines 250-318): identical switch, but the `<required>` tag is
emitted for every field type, Master-Detail included. -/
def compileFieldPrev (field : FieldDefinition) : Except Str Str :=
  let apiName := field.name ++ lit "__c"
  let label := labelOf field
  let descTag := descriptionTagOf field
  let isRequired := if jsTruthyBool field.required then lit "true" else lit "false"
  match field.type with
  | .currency | .percent =>
    .ok (assembleFieldXmlPrev apiName label (fieldTypeStr field.type) descTag isRequired
      (lit "<precision>18</precision>\n    <scale>2</scale>"))
  | .number =>
    .ok (assembleFieldXmlPrev apiName label (fieldTypeStr field.type) descTag isRequired
      (lit "<precision>18</precision>\n    <scale>0</scale>"))
  | .text | .email | .url | .phone =>
    .ok (assembleFieldXmlPrev apiName label (fieldTypeStr field.type) descTag isRequired
      (lit "<length>255</length>"))
  | .checkbox | .date | .dateTime | .textArea =>
    .ok (assembleFieldXmlPrev apiName label (fieldTypeStr field.type) descTag isRequired [])
  | .lookup =>
    if !jsTruthyStr field.referenceTo then
      .error (lit "Field " ++ field.name ++ lit " is a Lookup but missing referenceTo.")
    else
      .ok (assembleFieldXmlPrev apiName label (fieldTypeStr field.type) descTag isRequired
        (lookupTags field label))
  | .masterDetail =>
    if !jsTruthyStr field.referenceTo then
      .error (lit "Field " ++ field.name ++ lit " is a Master-Detail but missing referenceTo.")
    else
      .ok (assembleFieldXmlPrev apiName label (lit "MasterDetail") descTag isRequired
        (masterDetailTags field label))

/-- Models `createFields` over a field list: `forEach` with a thrown
error aborting the remainder (files already written before the throw
are not modelled; the claim under test concerns the raised error). -/
def createFields : List FieldDefinition → Except Str (List Str)
  | [] => .ok []
  | f :: rest =>
    match compileField f with
    | .error e => .error e
    | .ok xml =>
      match createFields rest with
      | .error e => .error e
      | .ok xmls => .ok (xml :: xmls)

/-- The Master-Detail field the repository itself compiles with the
earlier revision (part_000 lines 588-597). -/
def mdFieldEx : FieldDefinition :=
  { name := lit "Property"
    label := some (lit "Property")
    type := FieldType.masterDetail
    description := some (lit "The property being favorited")
    required := some true
    referenceTo := some (lit "Property__c")
    relationshipLabel := some (lit "Favorites")
    relationshipName := some (lit "Favorites") }

/-!
### Absence of a substring in a concatenation of segments

To prove that the Master-Detail fragment of the final revision contains
no `<required>` tag we view the emitted document as a flat list of
segments, each either a concrete template literal or an interpolated
input, and show that no occurrence of the needle can start anywhere.
-/

/-- A concrete template literal `L` is clear of the needle `t` when `t`
does not occur inside `L` and no nonempty suffix of `L` starts an
occurrence (is a prefix of `t`).  Decidable, checked by `decide`. -/
def litClear (t L : Str) : Bool :=
  L.tails.all (fun s => s.isEmpty || (!(s.isPrefixOf t) && !(t.isPrefixOf s)))

/-- Flattens a segment list into the document it denotes. -/
def flatSegs (segs : List Str) : Str := segs.foldr (· ++ ·) []

/-- Decidable check that a modelled string contains no `<`. -/
def noLt (s : Str) : Bool := decide ('<' ∉ s)

/-- Decidable check for an optional string. -/
def cleanOptStr : Option Str → Bool
  | some s => noLt s
  | none => true

/-- A field definition whose string members are free of `<`, the shape
every well-formed identifier, label or description has. -/
def cleanField (field : FieldDefinition) : Bool :=
  noLt field.name && cleanOptStr field.label && cleanOptStr field.description &&
  cleanOptStr field.referenceTo && cleanOptStr field.relationshipLabel &&
  cleanOptStr field.relationshipName

/-!
### Object definitions (`createObject`)

Two revisions matter here:

* `createObject` models createFieldsNLayouts.ts lines 190-240 (also
  part_000 lines 195-245): an AutoNumber name field without a truthy
  `displayFormat` throws.
* `createObjectFinal` models part_000 lines 664-706, where that check
  is absent: the document is written with the interpolation of
  `undefined`.

The object document written to `<apiName>.object-meta.xml` is the
returned string.
-/

/-- The `'Text' | 'AutoNumber'` union of `NameFieldOptions`. -/
inductive NameFieldType where
  | text | autoNumber
deriving DecidableEq

/-- Models the `NameFieldOptions` interface
(createFieldsNLayouts.ts lines 31-36). -/
structure NameFieldOptions where
  label : Str
  type : NameFieldType
  displayFormat : Option Str
  startingNumber : Option Int

/-- Models `x || d` for a number-or-undefined `x`: `undefined` and `0`
are falsy (`NaN` is not modelled). -/
def jsOrNum (x : Option Int) (d : Int) : Int :=
  match x with
  | some n => if n = 0 then d else n
  | none => d

/-- Template interpolation of a number. -/
def intRender (n : Int) : Str := (toString n).toList

/-- The object template (createFieldsNLayouts.ts lines 222-236, also
part_000 lines 688-702). -/
def objectXml (apiName label pluralLabel nameFieldXml : Str) : Str :=
  lit "<?xml version=\"1.0\" encoding=\"UTF-8\"?>\n<CustomObject xmlns=\"http://soap.sforce.com/2006/04/metadata\">\n    <fullName>" ++
  apiName ++
  lit "</fullName>\n    <label>" ++
  label ++
  lit "</label>\n    <pluralLabel>" ++
  pluralLabel ++
  lit "</pluralLabel>\n    <deploymentStatus>Deployed</deploymentStatus>\n    <sharingModel>ReadWrite</sharingModel>\n    <enableSharing>true</enableSharing>\n    <enableBulkApi>true</enableBulkApi>\n    <enableStreamingApi>true</enableStreamingApi>\n    <enableActivities>true</enableActivities>\n    <enableReports>true</enableReports>\n    <enableSearch>true</enableSearch>\n    " ++
  nameFieldXml ++
  lit "\n</CustomObject>"

/-- The AutoNumber name-field fragment (createFieldsNLayouts.ts lines
210-216, also part_000 lines 676-682). -/
def autoNumberNameFieldXml (opts : NameFieldOptions) : Str :=
  lit "\n    <nameField>\n        <displayFormat>" ++
  renderOptStr opts.displayFormat ++
  lit "</displayFormat>\n        <label>" ++
  opts.label ++
  lit "</label>\n        <type>AutoNumber</type>\n        <startingNumber>" ++
  intRender (jsOrNum opts.startingNumber 1) ++
  lit "</startingNumber>\n    </nameField>"

/-- Models `createObject` (createFieldsNLayouts.ts lines 190-240):
returns the written object document, or the thrown error for an
AutoNumber name field whose `displayFormat` is absent or empty. -/
def createObject (objectName label pluralLabel : Str)
    (nameFieldOptions : Option NameFieldOptions) : Except Str Str :=
  let apiName := (getObjectDetails objectName).1
  match nameFieldOptions with
  | none =>
    .ok (objectXml apiName label pluralLabel
      (lit "<nameField><label>" ++ label ++ lit " Name</label><type>Text</type></nameField>"))
  | some opts =>
    match opts.type with
    | .autoNumber =>
      if !jsTruthyStr opts.displayFormat then
        .error (lit "AutoNumber requires a displayFormat (e.g. OF-{0000})")
      else
        .ok (objectXml apiName label pluralLabel (autoNumberNameFieldXml opts))
    | .text =>
      .ok (objectXml apiName label pluralLabel
        (lit "<nameField><label>" ++ opts.label ++ lit "</label><type>Text</type></nameField>"))

/-- Models `createObject` of the final revision (part_000 lines
664-706): the displayFormat guard was dropped, so the AutoNumber branch
always writes, interpolating `undefined` when the format is absent. -/
def createObjectFinal (objectName label pluralLabel : Str)
    (nameFieldOptions : Option NameFieldOptions) : Except Str Str :=
  let apiName := (getObjectDetails objectName).1
  match nameFieldOptions with
  | none =>
    .ok (objectXml apiName label pluralLabel
      (lit "<nameField><label>" ++ label ++ lit " Name</label><type>Text</type></nameField>"))
  | some opts =>
    match opts.type with
    | .autoNumber =>
      .ok (objectXml apiName label pluralLabel (autoNumberNameFieldXml opts))
    | .text =>
      .ok (objectXml apiName label pluralLabel
        (lit "<nameField><label>" ++ opts.label ++ lit "</label><type>Text</type></nameField>"))

/-!
### Layout mutation (`addFieldToLayout`, updateLayouts.ts lines 8-56)

The single layout file the operation may touch is modelled as an
`Option Str`: `none` when the file does not exist, `some content`
otherwise; the function returns the state of that file after the call.

The fixed two-column-section regex
`<layoutSections>[\s\S]*?<style>TwoColumns.*?</style>[\s\S]*?<layoutColumns>([\s\S]*?)</layoutColumns>`
is modelled by `findTwoColBlock`: the lazy any-character gaps make the
leftmost match start at the first `<layoutSections>` and extend through
the earliest following `<style>TwoColumns`, `</style>`,
`<layoutColumns>` and `</layoutColumns>` anchors in order, which is
exactly the sequence of first-occurrence searches below.  (The
no-newline constraint of `.` between `TwoColumns` and `</style>` is not
modelled; the style element is a single line in every document this
repository produces.)
-/

/-- The duplicate-check needle `<field>fieldName</field>`
(updateLayouts.ts line 27). -/
def fieldTag (fieldName : Str) : Str :=
  lit "<field>" ++ fieldName ++ lit "</field>"

/-- The inserted layout-item block (updateLayouts.ts lines 33-37). -/
def newFieldXml (fieldName : Str) : Str :=
  lit "\n                <layoutItems>\n                    <behavior>Edit</behavior>\n                    " ++
  fieldTag fieldName ++
  lit "\n                </layoutItems>"

/-- The match of the two-column-section regex: `some (pre, block, post)`
with `content = pre ++ block ++ post`, `block` being the matched text,
or `none` when the pattern does not match. -/
def findTwoColBlock (content : Str) : Option (Str × Str × Str) :=
  match splitAtFirst (lit "<layoutSections>") content with
  | none => none
  | some (p1, r1) =>
    match splitAtFirst (lit "<style>TwoColumns") r1 with
    | none => none
    | some (p2, r2) =>
      match splitAtFirst (lit "</style>") r2 with
      | none => none
      | some (p3, r3) =>
        match splitAtFirst (lit "<layoutColumns>") r3 with
        | none => none
        | some (p4, r4) =>
          match splitAtFirst (lit "</layoutColumns>") r4 with
          | none => none
          | some (p5, r5) =>
            some (p1,
              lit "<layoutSections>" ++ p2 ++ lit "<style>TwoColumns" ++ p3 ++
                lit "</style>" ++ p4 ++ lit "<layoutColumns>" ++ p5 ++
                lit "</layoutColumns>",
              r5)

/-- Models `addFieldToLayout` (updateLayouts.ts lines 8-56, identical
in createFieldsNLayouts.ts lines 417-459): missing file or missing
two-column section leaves everything unchanged; a present field tag is
a no-op; otherwise the new item is inserted before the closing
`</layoutColumns>` of the matched block, and the first occurrence of
the block in the document is replaced by the updated block. -/
def addFieldToLayout (fieldName : Str) (file : Option Str) : Option Str :=
  match file with
  | none => none
  | some content =>
    if includes content (fieldTag fieldName) then some content
    else
      match findTwoColBlock content with
      | some (_, block, _) =>
        some (replaceFirst content block
          (replaceFirst block (lit "</layoutColumns>")
            (newFieldXml fieldName ++ lit "\n        </layoutColumns>")))
      | none => some content

/-- A small layout document with a two-column section, shaped like the
section layout `createLayout` generates. -/
def twoColLayoutDoc : Str :=
  lit "<Layout>\n    <layoutSections>\n        <style>TwoColumnsTopToBottom</style>\n        <layoutColumns>\n        </layoutColumns>\n    </layoutSections>\n</Layout>"

/-- A minimal document matched by the two-column pattern, used to
exhibit the dollar-substitution failure of the idempotence claim. -/
def tinyTwoColDoc : Str :=
  lit "<layoutSections><style>TwoColumns</style><layoutColumns></layoutColumns>"

/-!
### Record formatting (`createRecords`)

Models `createRecords` (createFieldsNLayouts.ts lines 144-185, also
part_000 lines 149-190).  A JavaScript record object is an
insertion-ordered association list `JSObj`; `jsSet` models property
assignment (updating in place when the key exists, appending
otherwise), `jsDelete` models the `delete` operator, and `spreadInto`
models the object literal `{attributes: ..., ...record}` (properties
assigned left to right, so the spread record overwrites earlier keys).

The `findFields` directory scan that computes the required field names
is a filesystem input and is passed in as the `requiredFieldNames`
parameter.  The function returns the pair of
(the `records` array written to the JSON file,
 the caller-supplied `recordList` as it is left after the in-place
 `delete record['Name']` and `record[reqField] = null` mutations).
-/

/-- A JavaScript value as used by these records. -/
inductive JSVal where
  | str : Str → JSVal
  | num : Int → JSVal
  | null : JSVal
  | attrs : Str → Str → JSVal
deriving DecidableEq

/-- A JavaScript object: insertion-ordered key/value pairs. -/
abbrev JSObj := List (Str × JSVal)

/-- Property lookup (first entry with the key). -/
def jsGet : JSObj → Str → Option JSVal
  | [], _ => none
  | p :: o, k => if p.1 = k then some p.2 else jsGet o k

/-- Models `record.hasOwnProperty(k)`. -/
def hasOwn (o : JSObj) (k : Str) : Bool := (jsGet o k).isSome

/-- Models `record[k] = v`: update in place when present, else append. -/
def jsSet (o : JSObj) (k : Str) (v : JSVal) : JSObj :=
  if hasOwn o k then o.map (fun p => if p.1 = k then (k, v) else p)
  else o ++ [(k, v)]

/-- Models `delete record[k]`. -/
def jsDelete (o : JSObj) (k : Str) : JSObj := o.filter (fun p => p.1 != k)

/-- Models the object literal that starts from the fields of `acc` and
then spreads `m` over it. -/
def spreadInto (acc m : JSObj) : JSObj :=
  m.foldl (fun a p => jsSet a p.1 p.2) acc

/-- Models `nameFieldOptions?.type === 'AutoNumber'`. -/
def autoNumberOf : Option NameFieldOptions → Bool
  | some o => decide (o.type = NameFieldType.autoNumber)
  | none => false

/-- The auto-null pass of the map callback (part_000 lines 168-173). -/
def fillRequired (req : List Str) (r : JSObj) : JSObj :=
  req.foldl (fun acc f => if hasOwn acc f then acc else jsSet acc f JSVal.null) r

/-- The in-place mutations the map callback applies to a caller row:
the `Name` deletion for AutoNumber objects, then the auto-null pass. -/
def mutateRecord (autoN : Bool) (req : List Str) (r : JSObj) : JSObj :=
  fillRequired req (if autoN && hasOwn r (lit "Name") then jsDelete r (lit "Name") else r)

/-- The synthetic reference id `ref${index}`. -/
def refId (index : Nat) : Str := lit "ref" ++ (toString index).toList

/-- The record emitted at one index: the synthetic envelope under
`attributes`, with the (mutated) row spread over it. -/
def formatRecord (apiName : Str) (autoN : Bool) (req : List Str)
    (index : Nat) (r : JSObj) : JSObj :=
  spreadInto [(lit "attributes", JSVal.attrs apiName (refId index))]
    (mutateRecord autoN req r)

/-- `recordList.map((record, index) => ...)` with the running index. -/
def formatList (apiName : Str) (autoN : Bool) (req : List Str) :
    Nat → List JSObj → List JSObj
  | _, [] => []
  | i, r :: rs =>
    formatRecord apiName autoN req i r :: formatList apiName autoN req (i + 1) rs

/-- Models `createRecords`: first component the formatted records
written out, second component the state of the caller rows after the
call. -/
def createRecords (targetObject : Str) (recordList : List JSObj)
    (requiredFieldNames : List Str)
    (nameFieldOptions : Option NameFieldOptions) : List JSObj × List JSObj :=
  let apiName := (getObjectDetails targetObject).1
  let autoN := autoNumberOf nameFieldOptions
  (formatList apiName autoN requiredFieldNames 0 recordList,
   recordList.map (mutateRecord autoN requiredFieldNames))

/-!
### Theorems

The claims, their witnesses and counterexamples, and the
supporting lemmas, in dependency order.
-/

theorem splitAtFirst_eq (needle : Str) :
    ∀ (hay p s : Str), splitAtFirst needle hay = some (p, s) →
      hay = p ++ needle ++ s := by
  intro hay
  induction hay with
  | nil =>
    intro p s h
    unfold splitAtFirst at h
    split at h
    · rename_i hpre
      rw [ List.isPrefixOf_iff_prefix] at hpre
      have hn : needle = [] := List.prefix_nil.mp hpre
      simp only [Option.some.injEq, Prod.mk.injEq, List.drop_nil] at h
      obtain ⟨hp, hs2⟩ := h
      subst hp; subst hs2
      simp [hn]
    · simp at h
  | cons c rest ih =>
    intro p s h
    unfold splitAtFirst at h
    split at h
    · rename_i hpre
      rw [ List.isPrefixOf_iff_prefix] at hpre
      have hd := List.prefix_iff_eq_append.mp hpre
      simp only [Option.some.injEq, Prod.mk.injEq] at h
      obtain ⟨hp, hs2⟩ := h
      subst hp; subst hs2
      simpa using hd.symm
    · simp only [Option.map_eq_some'] at h
      obtain ⟨⟨p', s'⟩, hsp, heq⟩ := h
      have := ih p' s' hsp
      simp only [Prod.mk.injEq] at heq
      rw [← heq.1, ← heq.2]
      simp [this]

theorem splitAtFirst_isSome (needle : Str) :
    ∀ (p s : Str), (splitAtFirst needle (p ++ needle ++ s)).isSome = true := by
  intro p
  induction p with
  | nil =>
    intro s
    unfold splitAtFirst
    have : needle.isPrefixOf (needle ++ s) = true := by
      rw [ List.isPrefixOf_iff_prefix]; exact List.prefix_append needle s
    simp [this]
  | cons c p ih =>
    intro s
    unfold splitAtFirst
    split
    · simp
    · simpa using ih s

theorem includes_of_parts (p needle s : Str) :
    includes (p ++ needle ++ s) needle = true := by
  simpa [includes] using splitAtFirst_isSome needle p s

theorem splitAtFirst_of_isSome (needle hay : Str)
    (h : (splitAtFirst needle hay).isSome = true) :
    ∃ p s, splitAtFirst needle hay = some (p, s) ∧ hay = p ++ needle ++ s := by
  obtain ⟨⟨p, s⟩, hps⟩ := Option.isSome_iff_exists.mp h
  exact ⟨p, s, hps, splitAtFirst_eq needle hay p s hps⟩

theorem replaceFirst_parts (hay needle repl : Str)
    (h : (splitAtFirst needle hay).isSome = true) :
    ∃ p s, hay = p ++ needle ++ s ∧
      replaceFirst hay needle repl = p ++ getSubstitution needle p s repl ++ s := by
  obtain ⟨p, s, hps, heq⟩ := splitAtFirst_of_isSome needle hay h
  exact ⟨p, s, heq, by simp [replaceFirst, hps]⟩

theorem getSubstitution_cons_ne (m p s : Str) (x : Char) (t : Str) (hx : x ≠ '$') :
    getSubstitution m p s (x :: t) = x :: getSubstitution m p s t := by
  cases t with
  | nil => simp [getSubstitution, hx]
  | cons d r => simp [getSubstitution.eq_3, hx]

theorem getSubstitution_noDollar_append (m p s : Str) :
    ∀ b c : Str, '$' ∉ b →
      getSubstitution m p s (b ++ c) = b ++ getSubstitution m p s c := by
  intro b
  induction b with
  | nil => intro c _; rfl
  | cons x b' ih =>
    intro c hb
    have hx : x ≠ '$' := by
      intro he; subst he; exact hb (List.mem_cons_self _ _)
    have hb' : '$' ∉ b' := fun hm => hb (List.mem_cons_of_mem x hm)
    simp only [List.cons_append]
    rw [getSubstitution_cons_ne m p s x (b' ++ c) hx, ih c hb']

theorem getSubstitution_noDollar (m p s r : Str) (h : '$' ∉ r) :
    getSubstitution m p s r = r := by
  have := getSubstitution_noDollar_append m p s r [] h
  simpa [getSubstitution] using this

theorem getSubstitution_through (m p s b c : Str) (hb : '$' ∉ b)
    (hhd : ∀ hd, b.head? = some hd →
      hd ≠ '&' ∧ hd ≠ backquoteChar ∧ hd ≠ singleQuoteChar)
    (hne : b ≠ []) :
    ∀ a : Str, ∃ u,
      getSubstitution m p s (a ++ b ++ c) =
        u ++ (b ++ getSubstitution m p s c) := by
  obtain ⟨hd, b', rfl⟩ : ∃ hd b', b = hd :: b' := by
    cases b with
    | nil => exact absurd rfl hne
    | cons hd b' => exact ⟨hd, b', rfl⟩
  have hhd1 := hhd hd rfl
  have hhd0 : hd ≠ '$' := by
    intro he; subst he; exact hb (List.mem_cons_self _ _)
  have hbase : ∀ c' : Str, getSubstitution m p s ((hd :: b') ++ c') =
      (hd :: b') ++ getSubstitution m p s c' :=
    fun c' => getSubstitution_noDollar_append m p s (hd :: b') c' hb
  have hmain : ∀ n (a : Str), a.length ≤ n →
      ∃ u, getSubstitution m p s (a ++ (hd :: b') ++ c) =
        u ++ ((hd :: b') ++ getSubstitution m p s c) := by
    intro n
    induction n with
    | zero =>
      intro a ha
      have ha0 : a = [] := List.eq_nil_of_length_eq_zero (Nat.le_zero.mp ha)
      subst ha0
      exact ⟨[], by simpa using hbase c⟩
    | succ n ih =>
      intro a ha
      cases a with
      | nil => exact ⟨[], by simpa using hbase c⟩
      | cons x a' =>
        by_cases hx : x = '$'
        · subst hx
          cases a' with
          | nil =>
            refine ⟨['$'], ?_⟩
            simp only [List.cons_append, List.nil_append]
            simp [getSubstitution, hhd0, hhd1.1, hhd1.2.1, hhd1.2.2]
            simpa using hbase c
          | cons y a'' =>
            by_cases hy1 : y = '$'
            · subst hy1
              obtain ⟨u, hu⟩ := ih a'' (by simp at ha; omega)
              refine ⟨'$' :: u, ?_⟩
              simp only [List.cons_append]
              simp [getSubstitution]
              simpa using hu
            · by_cases hy2 : y = '&'
              · subst hy2
                obtain ⟨u, hu⟩ := ih a'' (by simp at ha; omega)
                refine ⟨m ++ u, ?_⟩
                simp only [List.cons_append]
                simp [getSubstitution, List.append_assoc]
                simpa [List.append_assoc] using hu
              · by_cases hy3 : y = backquoteChar
                · subst hy3
                  obtain ⟨u, hu⟩ := ih a'' (by simp at ha; omega)
                  refine ⟨p ++ u, ?_⟩
                  have hbq : backquoteChar ≠ '$' := by decide
                  simp only [List.cons_append]
                  simp [getSubstitution, hbq, hy2, List.append_assoc]
                  simpa [List.append_assoc] using hu
                · by_cases hy4 : y = singleQuoteChar
                  · subst hy4
                    obtain ⟨u, hu⟩ := ih a'' (by simp at ha; omega)
                    refine ⟨s ++ u, ?_⟩
                    have hsq : singleQuoteChar ≠ '$' := by decide
                    simp only [List.cons_append]
                    simp [getSubstitution, hsq, hy2, hy3, List.append_assoc]
                    simpa [List.append_assoc] using hu
                  · obtain ⟨u, hu⟩ := ih (y :: a'') (by simp at ha ⊢; omega)
                    refine ⟨'$' :: u, ?_⟩
                    simp only [List.cons_append] at hu ⊢
                    simp [getSubstitution, hy1, hy2, hy3, hy4]
                    simpa using hu
        · obtain ⟨u, hu⟩ := ih a' (by simp at ha; omega)
          refine ⟨x :: u, ?_⟩
          simp only [List.cons_append] at hu ⊢
          rw [getSubstitution_cons_ne m p s x _ hx, hu]
  exact fun a => hmain a.length a (Nat.le_refl _)

theorem endsWith_append (s t : Str) : endsWith (s ++ t) t = true := by
  simp [endsWith, List.isSuffixOf_iff_suffix]

/-- C3: a raw name in the standard-object list or already ending in
`__c` resolves to itself; every other raw name gets the `__c` suffix
appended; and resolution is idempotent: resolving the `apiName` of any
resolution result returns that same `apiName`. -/
theorem getObjectDetails_spec (name : Str) :
    ((STANDARD_OBJECTS.contains name = true ∨ endsWith name (lit "__c") = true) →
        (getObjectDetails name).1 = name) ∧
    (STANDARD_OBJECTS.contains name = false → endsWith name (lit "__c") = false →
        (getObjectDetails name).1 = name ++ lit "__c") ∧
    (getObjectDetails ((getObjectDetails name).1)).1 = (getObjectDetails name).1 := by
  refine ⟨?_, ?_, ?_⟩
  · intro h
    rcases h with h | h
    · have hm : name ∈ STANDARD_OBJECTS := by simpa using h
      simp [getObjectDetails, hm]
    · simp [getObjectDetails, h]
  · intro h1 h2
    have hm : name ∉ STANDARD_OBJECTS := by simpa using h1
    simp [getObjectDetails, hm, h2]
  · by_cases h1 : name ∈ STANDARD_OBJECTS
    · have e1 : getObjectDetails name = (name, name) := by
        simp [getObjectDetails, h1]
      simp [e1]
    · by_cases h2 : endsWith name (lit "__c") = true
      · have e1 : getObjectDetails name = (name, name) := by
          simp [getObjectDetails, h2]
        simp [e1]
      · have e1 : getObjectDetails name = (name ++ lit "__c", name ++ lit "__c") := by
          simp [getObjectDetails, h1, h2]
        have hs : endsWith (name ++ lit "__c") (lit "__c") = true :=
          endsWith_append name (lit "__c")
        have e2 : getObjectDetails (name ++ lit "__c") =
            (name ++ lit "__c", name ++ lit "__c") := by
          simp [getObjectDetails, hs]
        simp [e1, e2]

/-- Witness for C3 at the concrete inputs of the repository
(`Property` resolves to `Property__c`, and re-resolving is fixed). -/
theorem getObjectDetails_spec_witness :
    (getObjectDetails (lit "Property")).1 = lit "Property" ++ lit "__c" ∧
    (getObjectDetails ((getObjectDetails (lit "Property")).1)).1 =
      (getObjectDetails (lit "Property")).1 :=
  ⟨(getObjectDetails_spec (lit "Property")).2.1 (by decide) (by decide),
   (getObjectDetails_spec (lit "Property")).2.2⟩

/-- C5: a Lookup or Master-Detail field without `referenceTo` makes
`createFields` raise an error instead of emitting a field document. -/
theorem createFields_missing_referenceTo :
    ∀ (fieldList : List FieldDefinition) (field : FieldDefinition),
      field ∈ fieldList →
      (field.type = FieldType.lookup ∨ field.type = FieldType.masterDetail) →
      field.referenceTo = none →
      ∃ msg, createFields fieldList = Except.error msg := by
  intro fieldList
  induction fieldList with
  | nil => intro f hf _ _; simp at hf
  | cons g rest ih =>
    intro f hf ht hr
    cases hg : compileField g with
    | error e =>
      exact ⟨e, by simp [createFields, hg]⟩
    | ok v =>
      rcases List.mem_cons.mp hf with hfg | hfr
      · exfalso
        subst hfg
        rcases ht with ht | ht <;> simp [compileField, ht, hr, jsTruthyStr] at hg
      · obtain ⟨msg, hmsg⟩ := ih f hfr ht hr
        exact ⟨msg, by simp [createFields, hg, hmsg]⟩

/-- Witness for C5: a concrete Lookup field with no `referenceTo`. -/
theorem createFields_missing_referenceTo_witness :
    ∃ msg,
      createFields
        [{ name := lit "Contact", label := some (lit "Contact"),
           type := FieldType.lookup, description := none, required := none,
           referenceTo := none, relationshipLabel := none,
           relationshipName := none }] = Except.error msg :=
  createFields_missing_referenceTo
    [{ name := lit "Contact", label := some (lit "Contact"),
       type := FieldType.lookup, description := none, required := none,
       referenceTo := none, relationshipLabel := none,
       relationshipName := none }]
    { name := lit "Contact", label := some (lit "Contact"),
      type := FieldType.lookup, description := none, required := none,
      referenceTo := none, relationshipLabel := none,
      relationshipName := none }
    (List.mem_singleton.mpr rfl) (Or.inl rfl) rfl

set_option maxRecDepth 100000 in
/-- Counterexample to C1 as stated: the earlier Master-Detail-capable
revision of `createFields` (part_000 lines 250-318) emits a fragment
for a Master-Detail field that does contain a `<required>` tag. -/
theorem masterDetail_required_counterexample :
    ∃ xml, compileFieldPrev mdFieldEx = Except.ok xml ∧
      includes xml (lit "<required>") = true :=
  ⟨_, rfl, by decide⟩

/-- Splits an occurrence of `t` in `a ++ b` into one of three shapes:
fully inside `a`, fully inside `b`, or straddling the boundary. -/
theorem infix_append_cases {t a b : Str} (h : t <:+: a ++ b) :
    t <:+: a ∨ t <:+: b ∨
      ∃ t₁ t₂, t = t₁ ++ t₂ ∧ t₁ ≠ [] ∧ t₁ <:+ a ∧ t₂ <+: b := by
  obtain ⟨u, v, huv⟩ := h
  by_cases h1 : u.length + t.length ≤ a.length
  · left
    have h3 := congrArg (List.take a.length) huv
    rw [List.take_left, List.take_append_eq_append_take,
      List.take_of_length_le (by simp; omega)] at h3
    exact ⟨u, v.take (a.length - (u ++ t).length), h3⟩
  · by_cases h2 : a.length ≤ u.length
    · right; left
      have h3 := congrArg (List.drop a.length) huv
      rw [List.drop_left, List.drop_append_eq_append_drop,
        List.drop_append_eq_append_drop,
        Nat.sub_eq_zero_of_le h2, List.drop_zero,
        Nat.sub_eq_zero_of_le (by simp; omega), List.drop_zero] at h3
      exact ⟨u.drop a.length, v, h3⟩
    · right; right
      have hlt1 : a.length < u.length + t.length := by omega
      have hlt2 : u.length < a.length := by omega
      refine ⟨t.take (a.length - u.length), t.drop (a.length - u.length),
        (List.take_append_drop _ t).symm, ?_, ?_, ?_⟩
      · intro hnil
        rcases List.take_eq_nil_iff.mp hnil with h0 | h0
        · omega
        · rw [h0] at hlt1; simp at hlt1; omega
      · have h3 := congrArg (List.take a.length) huv
        rw [List.take_left, List.take_append_eq_append_take,
          List.take_append_eq_append_take,
          List.take_of_length_le (Nat.le_of_lt hlt2),
          show a.length - (u ++ t).length = 0 by simp; omega,
          List.take_zero, List.append_nil] at h3
        exact ⟨u, h3⟩
      · have h3 := congrArg (List.drop a.length) huv
        rw [List.drop_left, List.drop_append_eq_append_drop,
          List.drop_append_eq_append_drop,
          List.drop_of_length_le (Nat.le_of_lt hlt2), List.nil_append,
          show a.length - (u ++ t).length = 0 by simp; omega,
          List.drop_zero] at h3
        exact ⟨v, h3⟩

theorem litClear_spec {t L : Str} (h : litClear t L = true) :
    ∀ s, s <:+ L → s ≠ [] → ¬ s <+: t ∧ ¬ t <+: s := by
  intro s hs hne
  have hmem : s ∈ L.tails := (List.mem_tails s L).mpr hs
  have hcond := List.all_eq_true.mp h s hmem
  have hne2 : s.isEmpty = false := by
    cases s with
    | nil => exact absurd rfl hne
    | cons x xs => rfl
  rw [hne2, Bool.false_or, Bool.and_eq_true] at hcond
  constructor
  · intro hp
    have hb : List.isPrefixOf s t = true := List.isPrefixOf_iff_prefix.mpr hp
    have hc1 := hcond.1
    rw [Bool.not_eq_true'] at hc1
    rw [hc1] at hb
    exact Bool.false_ne_true hb
  · intro hp
    have hb : List.isPrefixOf t s = true := List.isPrefixOf_iff_prefix.mpr hp
    have hc2 := hcond.2
    rw [Bool.not_eq_true'] at hc2
    rw [hc2] at hb
    exact Bool.false_ne_true hb

theorem litClear_not_occurs {t L : Str} (ht : t ≠ []) (h : litClear t L = true) :
    ¬ t <:+: L := by
  intro hinf
  obtain ⟨s, hpre, hsuf⟩ := List.infix_iff_prefix_suffix.mp hinf
  have hne : s ≠ [] := by
    intro he; subst he; exact ht (List.prefix_nil.mp hpre)
  exact (litClear_spec h s hsuf hne).2 hpre

theorem flatSegs_append (xs ys : List Str) :
    flatSegs (xs ++ ys) = flatSegs xs ++ flatSegs ys := by
  induction xs with
  | nil => simp [flatSegs]
  | cons a xs ih =>
    simp only [flatSegs] at ih ⊢
    simp [List.foldr_cons, ih, List.append_assoc]

/-- No occurrence of the needle `c :: ts` exists in a flattened segment
list when every segment is either a clear literal or an input free of
the needle head `c`. -/
theorem chain_not_occurs (c : Char) (ts : Str) :
    ∀ segs : List Str,
      (∀ s ∈ segs, litClear (c :: ts) s = true ∨ c ∉ s) →
      ¬ (c :: ts) <:+: flatSegs segs := by
  intro segs
  induction segs with
  | nil =>
    intro _ hinf
    simp [flatSegs] at hinf
  | cons a rest ih =>
    intro h hinf
    have ha := h a (List.mem_cons_self a rest)
    have hrest := fun s hs => h s (List.mem_cons_of_mem a hs)
    have hflat : flatSegs (a :: rest) = a ++ flatSegs rest := rfl
    rw [hflat] at hinf
    rcases infix_append_cases hinf with hcase | hcase | hcase
    · rcases ha with ha | ha
      · exact litClear_not_occurs (by simp) ha hcase
      · exact ha (hcase.subset (List.mem_cons_self c ts))
    · exact ih hrest hcase
    · obtain ⟨t₁, t₂, heq, hne, hsuf, _⟩ := hcase
      have hp : t₁ <+: (c :: ts) := heq ▸ List.prefix_append t₁ t₂
      rcases ha with ha | ha
      · exact (litClear_spec ha t₁ hsuf hne).1 hp
      · have hc : c ∈ t₁ := by
          cases t₁ with
          | nil => exact absurd rfl hne
          | cons x xs =>
            obtain ⟨r, hr⟩ := hp
            have : x = c := by
              have := congrArg (fun l => l.head?) hr
              simpa using this
            exact this ▸ List.mem_cons_self x xs
        exact ha (hsuf.subset hc)

theorem includes_eq_false_of_no_occurrence {hay needle : Str}
    (h : ¬ needle <:+: hay) : includes hay needle = false := by
  by_contra hne
  rw [Bool.not_eq_false] at hne
  obtain ⟨p, s, _, hps⟩ := splitAtFirst_of_isSome needle hay hne
  exact h ⟨p, s, hps.symm⟩

theorem noLt_spec {s : Str} (h : noLt s = true) : '<' ∉ s := by
  simpa [noLt] using h

theorem cleanOptStr_spec {x : Option Str} (h : cleanOptStr x = true) :
    ∀ s, x = some s → '<' ∉ s := by
  intro s hs
  subst hs
  exact noLt_spec h

theorem notMem_append_parts {c : Char} {a b : Str} (ha : c ∉ a) (hb : c ∉ b) :
    c ∉ a ++ b := by
  simp [List.mem_append, ha, hb]

theorem underscoreToSpace_notMem {s : Str} (h : '<' ∉ s) :
    '<' ∉ underscoreToSpace s := by
  intro hm
  simp only [underscoreToSpace, List.mem_map] at hm
  obtain ⟨x, hx, he⟩ := hm
  by_cases hu : x = '_'
  · rw [if_pos hu] at he; exact absurd he (by decide)
  · rw [if_neg hu] at he; exact h (he ▸ hx)

theorem labelOf_notMem {field : FieldDefinition}
    (hn : '<' ∉ field.name)
    (hl : ∀ l, field.label = some l → '<' ∉ l) :
    '<' ∉ labelOf field := by
  cases hc : field.label with
  | none => simpa only [labelOf, hc] using underscoreToSpace_notMem hn
  | some l =>
    simp only [labelOf, hc]
    by_cases he : l.isEmpty = true
    · rw [if_pos he]; exact underscoreToSpace_notMem hn
    · rw [if_neg he]; exact hl l hc

theorem jsOrStr_notMem {x : Option Str} {d : Str}
    (hx : ∀ s, x = some s → '<' ∉ s) (hd : '<' ∉ d) :
    '<' ∉ jsOrStr x d := by
  cases hc : x with
  | none => simpa only [jsOrStr, hc] using hd
  | some s =>
    simp only [jsOrStr, hc]
    by_cases he : s.isEmpty = true
    · rw [if_pos he]; exact hd
    · rw [if_neg he]; exact hx s hc

set_option maxRecDepth 1000000 in
/-- C1 (amended to the final revision): the field document the final
`createFields` (part_000 lines 708-775) emits for a Master-Detail field
contains no `<required>` tag, whatever the `required` flag was, for
every field whose string members are free of `<`. -/
theorem createFields_masterDetail_no_required_tag (field : FieldDefinition)
    (htype : field.type = FieldType.masterDetail)
    (hclean : cleanField field = true) :
    ∀ xml, compileField field = Except.ok xml →
      includes xml (lit "<required>") = false := by
  have hc := hclean
  simp only [cleanField, Bool.and_eq_true] at hc
  obtain ⟨⟨⟨⟨⟨hc1, hc2⟩, hc3⟩, hc4⟩, hc5⟩, hc6⟩ := hc
  have hn : '<' ∉ field.name := noLt_spec hc1
  have hlab : '<' ∉ labelOf field := labelOf_notMem hn (cleanOptStr_spec hc2)
  have hapi : '<' ∉ field.name ++ lit "__c" := notMem_append_parts hn (by decide)
  have hrl : '<' ∉ jsOrStr field.relationshipLabel (labelOf field) :=
    jsOrStr_notMem (cleanOptStr_spec hc5) hlab
  have hrn : '<' ∉ jsOrStr field.relationshipName field.name :=
    jsOrStr_notMem (cleanOptStr_spec hc6) hn
  intro xml hxml
  cases href : field.referenceTo with
  | none => simp [compileField, htype, href, jsTruthyStr] at hxml
  | some r =>
    have hrr : '<' ∉ renderOptStr field.referenceTo := by
      rw [href]
      simpa only [renderOptStr] using cleanOptStr_spec hc4 r href
    by_cases hre : r.isEmpty = true
    · exfalso
      simp [compileField, htype, href, jsTruthyStr, hre] at hxml
    · have hxeq : xml = assembleFieldXml (field.name ++ lit "__c") (labelOf field)
          (lit "MasterDetail") (descriptionTagOf field) []
          (masterDetailTags field (labelOf field)) := by
        simp only [Bool.not_eq_true] at hre
        simp [compileField, htype, href, jsTruthyStr, hre] at hxml
        exact hxml.symm
      subst hxeq
      have hdesc : ∃ dsegs : List Str, descriptionTagOf field = flatSegs dsegs ∧
          ∀ s ∈ dsegs, litClear ('<' :: lit "required>") s = true ∨ '<' ∉ s := by
        cases hd : field.description with
        | none =>
          exact ⟨[], by simp [descriptionTagOf, hd, flatSegs], by intro s hs; simp at hs⟩
        | some d =>
          by_cases hde : d.isEmpty = true
          · exact ⟨[], by simp [descriptionTagOf, hd, hde, flatSegs],
              by intro s hs; simp at hs⟩
          · refine ⟨[lit "<description>", d, lit "</description>"], ?_, ?_⟩
            · simp [descriptionTagOf, hd, hde, flatSegs]
            · intro s hs
              simp only [List.mem_cons, List.not_mem_nil, or_false] at hs
              rcases hs with h | h | h
              · left; subst h; decide
              · right; rw [h]; exact cleanOptStr_spec hc3 d hd
              · left; subst h; decide
      obtain ⟨dsegs, hdeq, hdok⟩ := hdesc
      have hxml2 : assembleFieldXml (field.name ++ lit "__c") (labelOf field)
          (lit "MasterDetail") (descriptionTagOf field) []
          (masterDetailTags field (labelOf field)) =
          flatSegs
            ([lit "<?xml version=\"1.0\" encoding=\"UTF-8\"?>\n<CustomField xmlns=\"http://soap.sforce.com/2006/04/metadata\">\n    <fullName>",
              field.name ++ lit "__c",
              lit "</fullName>\n    <label>",
              labelOf field,
              lit "</label>\n    <type>",
              lit "MasterDetail",
              lit "</type>\n    "] ++ dsegs ++
             [lit "\n    ",
              lit "\n    ",
              lit "\n    <writeRequiresMasterRead>false</writeRequiresMasterRead>\n    <reparentableMasterDetail>false</reparentableMasterDetail>\n    <referenceTo>",
              renderOptStr field.referenceTo,
              lit "</referenceTo>\n    <relationshipLabel>",
              jsOrStr field.relationshipLabel (labelOf field),
              lit "</relationshipLabel>\n    <relationshipName>",
              jsOrStr field.relationshipName field.name,
              lit "</relationshipName>",
              lit "\n</CustomField>"]) := by
        rw [flatSegs_append, flatSegs_append, ← hdeq]
        simp [assembleFieldXml, masterDetailTags, flatSegs, List.append_assoc]
      rw [hxml2, show lit "<required>" = '<' :: lit "required>" from rfl]
      apply includes_eq_false_of_no_occurrence
      apply chain_not_occurs
      intro s hs
      rw [List.mem_append, List.mem_append] at hs
      rcases hs with (hs | hs) | hs
      · simp only [List.mem_cons, List.not_mem_nil, or_false] at hs
        rcases hs with h | h | h | h | h | h | h
        · left; subst h; decide
        · right; subst h; exact hapi
        · left; subst h; decide
        · right; subst h; exact hlab
        · left; subst h; decide
        · left; subst h; decide
        · left; subst h; decide
      · exact hdok s hs
      · simp only [List.mem_cons, List.not_mem_nil, or_false] at hs
        rcases hs with h | h | h | h | h | h | h | h | h | h
        · left; subst h; decide
        · left; subst h; decide
        · left; subst h; decide
        · right; subst h; exact hrr
        · left; subst h; decide
        · right; subst h; exact hrl
        · left; subst h; decide
        · right; subst h; exact hrn
        · left; subst h; decide
        · left; subst h; decide

set_option maxRecDepth 1000000 in
/-- Witness for C1 (amended): the repository Master-Detail field,
compiled by the final revision, yields a fragment without `<required>`. -/
theorem createFields_masterDetail_no_required_tag_witness :
    ∃ xml, compileField mdFieldEx = Except.ok xml ∧
      includes xml (lit "<required>") = false :=
  ⟨_, rfl, createFields_masterDetail_no_required_tag mdFieldEx rfl (by decide) _ rfl⟩

/-- C4 (amended to createFieldsNLayouts.ts): AutoNumber with an absent
or empty displayFormat makes `createObject` raise the configuration
error synchronously. -/
theorem createObject_autoNumber_missing_displayFormat
    (objectName label pluralLabel : Str) (opts : NameFieldOptions)
    (htype : opts.type = NameFieldType.autoNumber)
    (hdf : jsTruthyStr opts.displayFormat = false) :
    createObject objectName label pluralLabel (some opts) =
      Except.error (lit "AutoNumber requires a displayFormat (e.g. OF-{0000})") := by
  simp [createObject, htype, hdf]

/-- Witness for C4 at a concrete input. -/
theorem createObject_autoNumber_missing_displayFormat_witness :
    createObject (lit "Offer") (lit "Offer") (lit "Offers")
        (some { label := lit "Offer Name", type := NameFieldType.autoNumber,
                displayFormat := none, startingNumber := none }) =
      Except.error (lit "AutoNumber requires a displayFormat (e.g. OF-{0000})") :=
  createObject_autoNumber_missing_displayFormat (lit "Offer") (lit "Offer")
    (lit "Offers")
    { label := lit "Offer Name", type := NameFieldType.autoNumber,
      displayFormat := none, startingNumber := none } rfl (by decide)

set_option maxRecDepth 1000000 in
/-- Counterexample to C4 as stated: the final revision of
`createObject` (part_000 lines 664-706) does not raise on a missing
displayFormat; it writes an object document whose display format is the
text `undefined`. -/
theorem createObject_missing_displayFormat_counterexample :
    ∃ xml, createObjectFinal (lit "Offer") (lit "Offer") (lit "Offers")
        (some { label := lit "Offer Name", type := NameFieldType.autoNumber,
                displayFormat := none, startingNumber := none }) = Except.ok xml ∧
      includes xml (lit "<displayFormat>undefined</displayFormat>") = true :=
  ⟨_, rfl, by decide⟩

/-- C10: for every accepted AutoNumber name field the emitted
`<startingNumber>` is `startingNumber || 1`: the supplied number when it
is nonzero, and `1` both when `startingNumber` is absent and when it is
an explicit `0`. -/
theorem createObject_startingNumber (objectName label pluralLabel : Str)
    (opts : NameFieldOptions)
    (htype : opts.type = NameFieldType.autoNumber)
    (hdf : jsTruthyStr opts.displayFormat = true) :
    (∃ pre post, createObject objectName label pluralLabel (some opts) =
        Except.ok (pre ++ lit "<startingNumber>" ++
          intRender (jsOrNum opts.startingNumber 1) ++
          lit "</startingNumber>" ++ post)) ∧
    (∀ n : Int, opts.startingNumber = some n → n ≠ 0 →
        jsOrNum opts.startingNumber 1 = n) ∧
    ((opts.startingNumber = none ∨ opts.startingNumber = some 0) →
        jsOrNum opts.startingNumber 1 = 1) := by
  refine ⟨?_, ?_, ?_⟩
  · have h1 : createObject objectName label pluralLabel (some opts) =
        Except.ok (objectXml ((getObjectDetails objectName).1) label pluralLabel
          (autoNumberNameFieldXml opts)) := by
      simp [createObject, htype, hdf]
    refine ⟨(lit "<?xml version=\"1.0\" encoding=\"UTF-8\"?>\n<CustomObject xmlns=\"http://soap.sforce.com/2006/04/metadata\">\n    <fullName>" ++
        (getObjectDetails objectName).1 ++
        lit "</fullName>\n    <label>" ++ label ++
        lit "</label>\n    <pluralLabel>" ++ pluralLabel ++
        lit "</pluralLabel>\n    <deploymentStatus>Deployed</deploymentStatus>\n    <sharingModel>ReadWrite</sharingModel>\n    <enableSharing>true</enableSharing>\n    <enableBulkApi>true</enableBulkApi>\n    <enableStreamingApi>true</enableStreamingApi>\n    <enableActivities>true</enableActivities>\n    <enableReports>true</enableReports>\n    <enableSearch>true</enableSearch>\n    " ++
        lit "\n    <nameField>\n        <displayFormat>" ++
        renderOptStr opts.displayFormat ++
        lit "</displayFormat>\n        <label>" ++ opts.label ++
        lit "</label>\n        <type>AutoNumber</type>\n        "),
      (lit "\n    </nameField>" ++ lit "\n</CustomObject>"), ?_⟩
    rw [h1]
    have hsplit1 :
        lit "</label>\n        <type>AutoNumber</type>\n        <startingNumber>" =
          lit "</label>\n        <type>AutoNumber</type>\n        " ++
          lit "<startingNumber>" := by decide
    have hsplit2 :
        lit "</startingNumber>\n    </nameField>" =
          lit "</startingNumber>" ++ lit "\n    </nameField>" := by decide
    rw [objectXml, autoNumberNameFieldXml, hsplit1, hsplit2]
    simp [List.append_assoc]
  · intro n hn hnz
    simp [jsOrNum, hn, hnz]
  · intro h
    rcases h with h | h <;> simp [jsOrNum, h]

/-- Witness for C10: the repository Offer options with an explicit
`startingNumber` of `0` are accepted and emit `1`. -/
theorem createObject_startingNumber_witness :
    (∃ pre post, createObject (lit "Offer") (lit "Offer") (lit "Offers")
        (some { label := lit "Offer Name", type := NameFieldType.autoNumber,
                displayFormat := some (lit "OF-{0000}"),
                startingNumber := some 0 }) =
        Except.ok (pre ++ lit "<startingNumber>" ++
          intRender (jsOrNum (some 0) 1) ++
          lit "</startingNumber>" ++ post)) ∧
    jsOrNum (some (0 : Int)) 1 = 1 :=
  ⟨(createObject_startingNumber (lit "Offer") (lit "Offer") (lit "Offers")
      { label := lit "Offer Name", type := NameFieldType.autoNumber,
        displayFormat := some (lit "OF-{0000}"), startingNumber := some 0 }
      rfl (by decide)).1,
   (createObject_startingNumber (lit "Offer") (lit "Offer") (lit "Offers")
      { label := lit "Offer Name", type := NameFieldType.autoNumber,
        displayFormat := some (lit "OF-{0000}"), startingNumber := some 0 }
      rfl (by decide)).2.2 (Or.inr rfl)⟩

theorem findTwoColBlock_spec (content pre block post : Str)
    (h : findTwoColBlock content = some (pre, block, post)) :
    content = pre ++ block ++ post ∧
    ∃ blockPre, block = blockPre ++ lit "</layoutColumns>" := by
  unfold findTwoColBlock at h
  cases h1 : splitAtFirst (lit "<layoutSections>") content with
  | none => simp [h1] at h
  | some pr1 =>
    obtain ⟨p1, r1⟩ := pr1
    simp only [h1] at h
    cases h2 : splitAtFirst (lit "<style>TwoColumns") r1 with
    | none => simp [h2] at h
    | some pr2 =>
      obtain ⟨p2, r2⟩ := pr2
      simp only [h2] at h
      cases h3 : splitAtFirst (lit "</style>") r2 with
      | none => simp [h3] at h
      | some pr3 =>
        obtain ⟨p3, r3⟩ := pr3
        simp only [h3] at h
        cases h4 : splitAtFirst (lit "<layoutColumns>") r3 with
        | none => simp [h4] at h
        | some pr4 =>
          obtain ⟨p4, r4⟩ := pr4
          simp only [h4] at h
          cases h5 : splitAtFirst (lit "</layoutColumns>") r4 with
          | none => simp [h5] at h
          | some pr5 =>
            obtain ⟨p5, r5⟩ := pr5
            simp only [h5] at h
            simp only [Option.some.injEq, Prod.mk.injEq] at h
            obtain ⟨hpre, hblock, hpost⟩ := h
            have e1 := splitAtFirst_eq _ _ _ _ h1
            have e2 := splitAtFirst_eq _ _ _ _ h2
            have e3 := splitAtFirst_eq _ _ _ _ h3
            have e4 := splitAtFirst_eq _ _ _ _ h4
            have e5 := splitAtFirst_eq _ _ _ _ h5
            constructor
            · rw [← hpre, ← hblock, ← hpost]
              rw [e1, e2, e3, e4, e5]
              simp [List.append_assoc]
            · exact ⟨lit "<layoutSections>" ++ p2 ++ lit "<style>TwoColumns" ++ p3 ++
                lit "</style>" ++ p4 ++ lit "<layoutColumns>" ++ p5,
                by rw [← hblock]⟩

set_option maxRecDepth 100000 in
/-- C6 (amended): for a field name containing no dollar character,
invoking `addFieldToLayout` twice with the same field on the same
layout file yields the same final document as invoking it once; the
second invocation finds the `<field>` tag inserted by the first and
changes nothing.  The dollar restriction is necessary: for a field name
containing a JavaScript replacement pattern such as dollar-ampersand,
the GetSubstitution pass of `String.prototype.replace` mangles the
inserted tag, the duplicate check misses it, and idempotence fails (see
the counterexample). -/
theorem addFieldToLayout_idem (fieldName : Str) (file : Option Str)
    (hf : '$' ∉ fieldName) :
    addFieldToLayout fieldName (addFieldToLayout fieldName file) =
      addFieldToLayout fieldName file := by
  have hlits : '$' ∉ lit "\n                <layoutItems>\n                    <behavior>Edit</behavior>\n                    " ∧
      '$' ∉ lit "<field>" ∧ '$' ∉ lit "</field>" ∧
      '$' ∉ lit "\n                </layoutItems>" ∧
      '$' ∉ lit "\n        </layoutColumns>" := by decide
  have hnf : '$' ∉ newFieldXml fieldName := by
    simp only [newFieldXml, fieldTag, List.append_assoc, List.mem_append, not_or]
    exact ⟨hlits.1, hlits.2.1, hf, hlits.2.2.1, hlits.2.2.2.1⟩
  have hrepl : '$' ∉ newFieldXml fieldName ++ lit "\n        </layoutColumns>" := by
    simp only [List.mem_append, not_or]
    exact ⟨hnf, hlits.2.2.2.2⟩
  have hhead : (newFieldXml fieldName).head? = some (Char.ofNat 10) := rfl
  have hne : newFieldXml fieldName ≠ [] := by
    intro h; rw [h] at hhead; exact Option.noConfusion hhead
  cases file with
  | none => rfl
  | some content =>
    by_cases hinc : includes content (fieldTag fieldName) = true
    · simp [addFieldToLayout, hinc]
    · cases hblk : findTwoColBlock content with
      | none => simp [addFieldToLayout, hinc, hblk]
      | some triple =>
        obtain ⟨pre, block, post⟩ := triple
        obtain ⟨hcont, blockPre, hblock⟩ :=
          findTwoColBlock_spec content pre block post hblk
        have h1 : addFieldToLayout fieldName (some content) =
            some (replaceFirst content block
              (replaceFirst block (lit "</layoutColumns>")
                (newFieldXml fieldName ++ lit "\n        </layoutColumns>"))) := by
          simp [addFieldToLayout, hinc, hblk]
        have hbsome : (splitAtFirst (lit "</layoutColumns>") block).isSome = true := by
          rw [hblock]
          simpa using splitAtFirst_isSome (lit "</layoutColumns>") blockPre []
        obtain ⟨q, r, hqr, hupd⟩ := replaceFirst_parts block (lit "</layoutColumns>")
          (newFieldXml fieldName ++ lit "\n        </layoutColumns>") hbsome
        rw [getSubstitution_noDollar _ _ _ _ hrepl] at hupd
        have hcsome : (splitAtFirst block content).isSome = true := by
          rw [hcont]; exact splitAtFirst_isSome block pre post
        obtain ⟨p2, s2, hps2, hrep⟩ := replaceFirst_parts content block
          (replaceFirst block (lit "</layoutColumns>")
            (newFieldXml fieldName ++ lit "\n        </layoutColumns>")) hcsome
        have hhd2 : ∀ hd, (newFieldXml fieldName).head? = some hd →
            hd ≠ '&' ∧ hd ≠ backquoteChar ∧ hd ≠ singleQuoteChar := by
          intro hd hh
          have he : Char.ofNat 10 = hd := Option.some.inj (hhead.symm.trans hh)
          subst he
          exact ⟨by decide, by decide, by decide⟩
        obtain ⟨u, hu⟩ := getSubstitution_through block p2 s2
          (newFieldXml fieldName) (lit "\n        </layoutColumns>" ++ r)
          hnf hhd2 hne q
        have hfinal : includes (replaceFirst content block
            (replaceFirst block (lit "</layoutColumns>")
              (newFieldXml fieldName ++ lit "\n        </layoutColumns>")))
            (fieldTag fieldName) = true := by
          rw [hrep, hupd]
          have harg : q ++ (newFieldXml fieldName ++ lit "\n        </layoutColumns>") ++ r =
              q ++ newFieldXml fieldName ++ (lit "\n        </layoutColumns>" ++ r) := by
            simp [List.append_assoc]
          rw [harg, hu]
          have := includes_of_parts
            (p2 ++ (u ++
              lit "\n                <layoutItems>\n                    <behavior>Edit</behavior>\n                    "))
            (fieldTag fieldName)
            (lit "\n                </layoutItems>" ++
              getSubstitution block p2 s2 (lit "\n        </layoutColumns>" ++ r) ++ s2)
          simpa [newFieldXml, List.append_assoc] using this
        rw [h1]
        simp [addFieldToLayout, hfinal]

set_option maxRecDepth 1000000 in
/-- Witness for C6: the repository field name Offer_Amount__c contains
no dollar, and adding it twice to a concrete two-column layout document
equals adding it once. -/
theorem addFieldToLayout_idem_witness :
    '$' ∉ lit "Offer_Amount__c" ∧
    addFieldToLayout (lit "Offer_Amount__c")
        (addFieldToLayout (lit "Offer_Amount__c") (some twoColLayoutDoc)) =
      addFieldToLayout (lit "Offer_Amount__c") (some twoColLayoutDoc) :=
  ⟨by decide,
   addFieldToLayout_idem (lit "Offer_Amount__c") (some twoColLayoutDoc) (by decide)⟩

set_option maxRecDepth 1000000 in
/-- Counterexample for C6 as stated over every field name: for the
field name dollar-ampersand, GetSubstitution replaces the pattern by
the matched text, so the inserted tag becomes
`<field></layoutColumns></field>`; the duplicate check then misses the
field and the second invocation inserts again, changing the document. -/
theorem addFieldToLayout_not_idem_counterexample :
    addFieldToLayout (lit "$&")
        (addFieldToLayout (lit "$&") (some tinyTwoColDoc)) ≠
      addFieldToLayout (lit "$&") (some tinyTwoColDoc) := by decide

/-- C7: when the layout file does not exist, or exists but the
two-column-section pattern does not match, `addFieldToLayout` returns
normally and the file is unchanged. -/
theorem addFieldToLayout_missing_or_no_twocol (fieldName : Str) :
    addFieldToLayout fieldName none = none ∧
    ∀ content, findTwoColBlock content = none →
      addFieldToLayout fieldName (some content) = some content := by
  constructor
  · rfl
  · intro content hblk
    by_cases hinc : includes content (fieldTag fieldName) = true
    · simp [addFieldToLayout, hinc]
    · simp [addFieldToLayout, hinc, hblk]

set_option maxRecDepth 1000000 in
/-- Witness for C7: a concrete layout document without a two-column
section is returned unchanged. -/
theorem addFieldToLayout_missing_or_no_twocol_witness :
    addFieldToLayout (lit "Offer_Amount__c") none = none ∧
    addFieldToLayout (lit "Offer_Amount__c")
        (some (lit "<Layout>\n    <layoutSections>\n        <style>OneColumn</style>\n    </layoutSections>\n</Layout>")) =
      some (lit "<Layout>\n    <layoutSections>\n        <style>OneColumn</style>\n    </layoutSections>\n</Layout>") :=
  ⟨(addFieldToLayout_missing_or_no_twocol (lit "Offer_Amount__c")).1,
   (addFieldToLayout_missing_or_no_twocol (lit "Offer_Amount__c")).2 _ (by decide)⟩

theorem hasOwn_cons (p : Str × JSVal) (o : JSObj) (k : Str) :
    hasOwn (p :: o) k = (decide (p.1 = k) || hasOwn o k) := by
  by_cases hp : p.1 = k <;> simp [hasOwn, jsGet, hp]

theorem jsGet_none_of_hasOwn_false {o : JSObj} {k : Str}
    (h : hasOwn o k = false) : jsGet o k = none := by
  cases hj : jsGet o k with
  | none => rfl
  | some v => rw [hasOwn, hj] at h; simp at h

theorem hasOwn_iff_keys (o : JSObj) (k : Str) :
    hasOwn o k = true ↔ k ∈ o.map Prod.fst := by
  induction o with
  | nil => simp [hasOwn, jsGet]
  | cons p o ih =>
    rw [hasOwn_cons]
    simp only [Bool.or_eq_true, decide_eq_true_eq, List.map_cons, List.mem_cons, ih]
    constructor
    · rintro (h | h)
      · exact Or.inl h.symm
      · exact Or.inr h
    · rintro (h | h)
      · exact Or.inl h.symm
      · exact Or.inr h

theorem jsGet_mapSet_ne (o : JSObj) (k k' : Str) (v : JSVal) (h : k' ≠ k) :
    jsGet (o.map (fun p => if p.1 = k then (k, v) else p)) k' = jsGet o k' := by
  induction o with
  | nil => rfl
  | cons p o ih =>
    by_cases hp : p.1 = k
    · simp only [List.map_cons, if_pos hp, jsGet]
      rw [if_neg (Ne.symm h), if_neg (hp ▸ Ne.symm h)]
      exact ih
    · simp only [List.map_cons, if_neg hp, jsGet]
      by_cases hp' : p.1 = k'
      · rw [if_pos hp', if_pos hp']
      · rw [if_neg hp', if_neg hp']
        exact ih

theorem jsGet_mapSet_self (o : JSObj) (k : Str) (v : JSVal)
    (ho : hasOwn o k = true) :
    jsGet (o.map (fun p => if p.1 = k then (k, v) else p)) k = some v := by
  induction o with
  | nil => simp [hasOwn, jsGet] at ho
  | cons p o ih =>
    by_cases hp : p.1 = k
    · simp [jsGet, hp]
    · have ho' : hasOwn o k = true := by
        rw [hasOwn_cons] at ho; simpa [hp] using ho
      simp only [List.map_cons, if_neg hp, jsGet, if_neg hp]
      exact ih ho'

theorem jsGet_appendSet_self (o : JSObj) (k : Str) (v : JSVal)
    (ho : hasOwn o k = false) :
    jsGet (o ++ [(k, v)]) k = some v := by
  induction o with
  | nil => simp [jsGet]
  | cons p o ih =>
    rw [hasOwn_cons] at ho
    have hp : p.1 ≠ k := by
      intro he; rw [he] at ho; simp at ho
    have ho' : hasOwn o k = false := by simpa [hp] using ho
    simp only [List.cons_append, jsGet, if_neg hp]
    exact ih ho'

theorem jsGet_appendSet_ne (o : JSObj) (k k' : Str) (v : JSVal) (h : k' ≠ k) :
    jsGet (o ++ [(k, v)]) k' = jsGet o k' := by
  induction o with
  | nil => simp [jsGet, Ne.symm h]
  | cons p o ih =>
    simp only [List.cons_append, jsGet]
    by_cases hp : p.1 = k'
    · rw [if_pos hp, if_pos hp]
    · rw [if_neg hp, if_neg hp]
      exact ih

theorem jsGet_jsSet_self (o : JSObj) (k : Str) (v : JSVal) :
    jsGet (jsSet o k v) k = some v := by
  unfold jsSet
  by_cases ho : hasOwn o k = true
  · rw [if_pos ho]; exact jsGet_mapSet_self o k v ho
  · rw [if_neg ho]
    exact jsGet_appendSet_self o k v (by simpa using ho)

theorem jsGet_jsSet_ne (o : JSObj) (k k' : Str) (v : JSVal) (h : k' ≠ k) :
    jsGet (jsSet o k v) k' = jsGet o k' := by
  unfold jsSet
  by_cases ho : hasOwn o k = true
  · rw [if_pos ho]; exact jsGet_mapSet_ne o k k' v h
  · rw [if_neg ho]; exact jsGet_appendSet_ne o k k' v h

theorem hasOwn_jsSet (o : JSObj) (k k' : Str) (v : JSVal) :
    hasOwn (jsSet o k v) k' = (hasOwn o k' || decide (k' = k)) := by
  by_cases h : k' = k
  · subst h; simp [hasOwn, jsGet_jsSet_self]
  · simp [hasOwn, jsGet_jsSet_ne o k k' v h, h]

theorem spreadInto_cons (acc : JSObj) (p : Str × JSVal) (m : JSObj) :
    spreadInto acc (p :: m) = spreadInto (jsSet acc p.1 p.2) m := rfl

theorem hasOwn_spread (m : JSObj) :
    ∀ (acc : JSObj) (k : Str),
      hasOwn (spreadInto acc m) k = (hasOwn acc k || hasOwn m k) := by
  induction m with
  | nil => intro acc k; simp [spreadInto, hasOwn, jsGet]
  | cons p m ih =>
    intro acc k
    rw [spreadInto_cons, ih, hasOwn_jsSet, hasOwn_cons]
    by_cases hk : k = p.1
    · simp [hk]
    · have hpk : p.1 ≠ k := fun h => hk h.symm
      simp [hk, hpk]

theorem jsGet_spread_not_has (m : JSObj) :
    ∀ (acc : JSObj) (k : Str), hasOwn m k = false →
      jsGet (spreadInto acc m) k = jsGet acc k := by
  induction m with
  | nil => intro acc k _; rfl
  | cons p m ih =>
    intro acc k hm
    rw [hasOwn_cons] at hm
    have hp : p.1 ≠ k := by
      intro he; rw [he] at hm; simp at hm
    have hm' : hasOwn m k = false := by simpa [hp] using hm
    rw [spreadInto_cons, ih _ _ hm', jsGet_jsSet_ne _ _ _ _ (Ne.symm hp)]

theorem jsGet_spread_has (m : JSObj) :
    ∀ (acc : JSObj) (k : Str), (m.map Prod.fst).Nodup → hasOwn m k = true →
      jsGet (spreadInto acc m) k = jsGet m k := by
  induction m with
  | nil => intro acc k _ hm; simp [hasOwn, jsGet] at hm
  | cons p m ih =>
    intro acc k hnd hm
    rw [List.map_cons] at hnd
    have hnd2 := List.nodup_cons.mp hnd
    by_cases hp : p.1 = k
    · have hk : hasOwn m k = false := by
        cases hmk : hasOwn m k with
        | false => rfl
        | true =>
          exact absurd (hp ▸ (hasOwn_iff_keys m k).mp hmk) hnd2.1
      rw [spreadInto_cons, jsGet_spread_not_has m _ k hk]
      subst hp
      rw [jsGet_jsSet_self]
      simp [jsGet]
    · have hm' : hasOwn m k = true := by
        rw [hasOwn_cons] at hm; simpa [hp] using hm
      rw [spreadInto_cons, ih _ _ hnd2.2 hm']
      simp [jsGet, hp]

theorem jsGet_jsDelete_ne (o : JSObj) (k k' : Str) (h : k' ≠ k) :
    jsGet (jsDelete o k) k' = jsGet o k' := by
  induction o with
  | nil => rfl
  | cons p o ih =>
    by_cases hp : p.1 = k
    · have hne : p.1 ≠ k' := by rw [hp]; exact Ne.symm h
      simp only [jsDelete] at ih ⊢
      rw [List.filter_cons]
      simp [hp, jsGet, hne, ih, Ne.symm h]
    · simp only [jsDelete] at ih ⊢
      rw [List.filter_cons]
      by_cases hp' : p.1 = k'
      · simp [hp, hp', jsGet, h]
      · simp [hp, hp', jsGet, ih, h]

theorem hasOwn_jsDelete_self (o : JSObj) (k : Str) :
    hasOwn (jsDelete o k) k = false := by
  induction o with
  | nil => rfl
  | cons p o ih =>
    by_cases hp : p.1 = k
    · simp only [jsDelete] at ih ⊢
      rw [List.filter_cons]
      simp [hp, ih]
    · simp only [jsDelete] at ih ⊢
      rw [List.filter_cons]
      simp [hp, hasOwn_cons, ih]

theorem hasOwn_jsDelete_ne (o : JSObj) (k k' : Str) (h : k' ≠ k) :
    hasOwn (jsDelete o k) k' = hasOwn o k' := by
  simp [hasOwn, jsGet_jsDelete_ne o k k' h]

theorem fillRequired_cons (g : Str) (req : List Str) (r : JSObj) :
    fillRequired (g :: req) r =
      fillRequired req (if hasOwn r g then r else jsSet r g JSVal.null) := by
  simp [fillRequired]

theorem fillRequired_hasOwn_notMem (req : List Str) :
    ∀ (r : JSObj) (k : Str), k ∉ req →
      hasOwn (fillRequired req r) k = hasOwn r k := by
  induction req with
  | nil => intro r k _; rfl
  | cons g req ih =>
    intro r k hk
    have hkg : k ≠ g := fun he => hk (he ▸ List.mem_cons_self g req)
    have hk' : k ∉ req := fun hm => hk (List.mem_cons_of_mem g hm)
    rw [fillRequired_cons, ih _ _ hk']
    by_cases hg : hasOwn r g = true
    · rw [if_pos hg]
    · rw [if_neg hg, hasOwn_jsSet]
      simp [hkg]

theorem fillRequired_preserves (req : List Str) :
    ∀ (r : JSObj) (k : Str), hasOwn r k = true →
      jsGet (fillRequired req r) k = jsGet r k ∧
        hasOwn (fillRequired req r) k = true := by
  induction req with
  | nil => intro r k hr; exact ⟨rfl, hr⟩
  | cons g req ih =>
    intro r k hr
    rw [fillRequired_cons]
    by_cases hg : hasOwn r g = true
    · rw [if_pos hg]; exact ih r k hr
    · rw [if_neg hg]
      have hkg : k ≠ g := by
        intro he; rw [he] at hr; exact hg hr
      have hr' : hasOwn (jsSet r g JSVal.null) k = true := by
        rw [hasOwn_jsSet]; simp [hr]
      obtain ⟨h1, h2⟩ := ih (jsSet r g JSVal.null) k hr'
      exact ⟨by rw [h1, jsGet_jsSet_ne _ _ _ _ hkg], h2⟩

theorem fillRequired_absent (req : List Str) :
    ∀ (r : JSObj) (k : Str), hasOwn r k = false → k ∈ req →
      jsGet (fillRequired req r) k = some JSVal.null := by
  induction req with
  | nil => intro r k _ hk; simp at hk
  | cons g req ih =>
    intro r k hr hk
    rw [fillRequired_cons]
    by_cases hg : hasOwn r g = true
    · rw [if_pos hg]
      have hkg : k ≠ g := by
        intro he; rw [he, hg] at hr; simp at hr
      rcases List.mem_cons.mp hk with he | hm
      · exact absurd he hkg
      · exact ih r k hr hm
    · rw [if_neg hg]
      by_cases hkg : k = g
      · subst hkg
        have hset : hasOwn (jsSet r k JSVal.null) k = true := by
          rw [hasOwn_jsSet]; simp
        have := (fillRequired_preserves req (jsSet r k JSVal.null) k hset).1
        rw [this, jsGet_jsSet_self]
      · have hr' : hasOwn (jsSet r g JSVal.null) k = false := by
          rw [hasOwn_jsSet]; simp [hr, hkg]
        rcases List.mem_cons.mp hk with he | hm
        · exact absurd he hkg
        · exact ih _ k hr' hm

theorem deleteStep_hasOwn_false {autoN : Bool} {r : JSObj} {k : Str}
    (hr : hasOwn r k = false) :
    hasOwn (if autoN && hasOwn r (lit "Name") then jsDelete r (lit "Name") else r)
      k = false := by
  by_cases hc : (autoN && hasOwn r (lit "Name")) = true
  · rw [if_pos hc]
    by_cases hkn : k = lit "Name"
    · subst hkn; exact hasOwn_jsDelete_self r _
    · rw [hasOwn_jsDelete_ne r _ _ hkn]; exact hr
  · rw [if_neg hc]; exact hr

theorem mutate_hasOwn_false {autoN : Bool} {req : List Str} {r : JSObj} {k : Str}
    (hr : hasOwn r k = false) (hk : k ∉ req) :
    hasOwn (mutateRecord autoN req r) k = false := by
  unfold mutateRecord
  rw [fillRequired_hasOwn_notMem _ _ _ hk]
  exact deleteStep_hasOwn_false hr

theorem mutate_jsGet_null {autoN : Bool} {req : List Str} {r : JSObj} {k : Str}
    (hr : hasOwn r k = false) (hk : k ∈ req) :
    jsGet (mutateRecord autoN req r) k = some JSVal.null :=
  fillRequired_absent req _ k (deleteStep_hasOwn_false hr) hk

theorem mutate_no_Name {req : List Str} {r : JSObj}
    (hreq : lit "Name" ∉ req) :
    hasOwn (mutateRecord true req r) (lit "Name") = false := by
  unfold mutateRecord
  rw [fillRequired_hasOwn_notMem _ _ _ hreq]
  by_cases hn : hasOwn r (lit "Name") = true
  · simp only [hn, Bool.and_true, Bool.true_and, if_pos]
    exact hasOwn_jsDelete_self r _
  · rw [Bool.not_eq_true] at hn
    simp [hn]

theorem mutate_preserve {autoN : Bool} {req : List Str} {r : JSObj} {k : Str}
    (hkn : k ≠ lit "Name") (hr : hasOwn r k = true) :
    jsGet (mutateRecord autoN req r) k = jsGet r k ∧
      hasOwn (mutateRecord autoN req r) k = true := by
  unfold mutateRecord
  have hbase : jsGet (if autoN && hasOwn r (lit "Name") then
      jsDelete r (lit "Name") else r) k = jsGet r k := by
    by_cases hc : (autoN && hasOwn r (lit "Name")) = true
    · rw [if_pos hc]; exact jsGet_jsDelete_ne r _ k hkn
    · rw [if_neg hc]
  have hbase2 : hasOwn (if autoN && hasOwn r (lit "Name") then
      jsDelete r (lit "Name") else r) k = true := by
    rw [hasOwn, hbase]; exact hr
  have h := fillRequired_preserves req _ k hbase2
  exact ⟨by rw [h.1, hbase], h.2⟩

theorem keys_jsSet_nodup {o : JSObj} {k : Str} {v : JSVal}
    (h : (o.map Prod.fst).Nodup) : ((jsSet o k v).map Prod.fst).Nodup := by
  unfold jsSet
  by_cases ho : hasOwn o k = true
  · rw [if_pos ho]
    have hkeys : (o.map (fun p => if p.1 = k then (k, v) else p)).map Prod.fst =
        o.map Prod.fst := by
      rw [List.map_map]
      have hfun : (Prod.fst ∘ fun p : Str × JSVal =>
          if p.1 = k then (k, v) else p) = Prod.fst := by
        funext p
        by_cases hp : p.1 = k
        · simp [hp]
        · simp [hp]
      rw [hfun]
    rw [hkeys]; exact h
  · rw [if_neg ho, List.map_append]
    rw [List.nodup_append]
    refine ⟨h, by simp, ?_⟩
    intro a ha hb
    simp at hb
    rw [hb] at ha
    exact absurd ((hasOwn_iff_keys o k).mpr ha) (by simpa using ho)

theorem keys_jsDelete_nodup {o : JSObj} {k : Str}
    (h : (o.map Prod.fst).Nodup) : ((jsDelete o k).map Prod.fst).Nodup :=
  List.Nodup.sublist ((List.filter_sublist o).map Prod.fst) h

theorem keys_fillRequired_nodup (req : List Str) :
    ∀ r : JSObj, (r.map Prod.fst).Nodup →
      ((fillRequired req r).map Prod.fst).Nodup := by
  induction req with
  | nil => intro r h; exact h
  | cons g req ih =>
    intro r h
    rw [fillRequired_cons]
    apply ih
    by_cases hg : hasOwn r g = true
    · rw [if_pos hg]; exact h
    · rw [if_neg hg]; exact keys_jsSet_nodup h

theorem keys_mutate_nodup {autoN : Bool} {req : List Str} {r : JSObj}
    (h : (r.map Prod.fst).Nodup) :
    ((mutateRecord autoN req r).map Prod.fst).Nodup := by
  unfold mutateRecord
  apply keys_fillRequired_nodup
  by_cases hc : (autoN && hasOwn r (lit "Name")) = true
  · rw [if_pos hc]; exact keys_jsDelete_nodup h
  · rw [if_neg hc]; exact h

theorem formatList_get (apiName : Str) (autoN : Bool) (req : List Str) :
    ∀ (rows : List JSObj) (start j : Nat) (hj : j < rows.length)
      (hj2 : j < (formatList apiName autoN req start rows).length),
      (formatList apiName autoN req start rows).get ⟨j, hj2⟩ =
        formatRecord apiName autoN req (start + j) (rows.get ⟨j, hj⟩) := by
  intro rows
  induction rows with
  | nil => intro start j hj; simp at hj
  | cons r rs ih =>
    intro start j hj hj2
    cases j with
    | zero => simp [formatList, List.get]
    | succ j =>
      have hj' : j < rs.length := by simpa using Nat.lt_of_succ_lt_succ hj
      have hj2' : j < (formatList apiName autoN req (start + 1) rs).length := by
        simpa [formatList] using Nat.lt_of_succ_lt_succ hj2
      have := ih (start + 1) j hj' hj2'
      simp only [formatList, List.get] at this ⊢
      rw [this]
      have harith : start + 1 + j = start + (j + 1) := by omega
      rw [harith]

set_option maxRecDepth 100000 in
/-- Counterexample to C2 as stated: a row whose own key is named
`attributes` overwrites the synthetic envelope in the emitted record,
because the row is spread after the envelope. -/
theorem createRecords_attributes_counterexample :
    jsGet (((createRecords (lit "Property")
          [[(lit "attributes", JSVal.str (lit "boom"))]] [] none).1).headD [])
        (lit "attributes") = some (JSVal.str (lit "boom")) ∧
    some (JSVal.str (lit "boom")) ≠
      some (JSVal.attrs ((getObjectDetails (lit "Property")).1) (refId 0)) := by
  decide

/-- C2 (amended): the record `createRecords` emits at index `i` carries
the synthetic envelope `{type: apiName, referenceId: refI}` under
`attributes` whenever the row itself has no `attributes` key (and
`attributes` is not an auto-filled required field name); when the row
does have an `attributes` key, the row value wins, because the row is
spread after the envelope. -/
theorem createRecords_attributes_envelope
    (targetObject : Str) (rows : List JSObj) (req : List Str)
    (nf : Option NameFieldOptions) (i : Nat)
    (hi : i < rows.length)
    (hlen : i < ((createRecords targetObject rows req nf).1).length)
    (hreq : lit "attributes" ∉ req) :
    (hasOwn (rows.get ⟨i, hi⟩) (lit "attributes") = false →
      jsGet (((createRecords targetObject rows req nf).1).get ⟨i, hlen⟩)
          (lit "attributes") =
        some (JSVal.attrs ((getObjectDetails targetObject).1) (refId i))) ∧
    (((rows.get ⟨i, hi⟩).map Prod.fst).Nodup →
      hasOwn (rows.get ⟨i, hi⟩) (lit "attributes") = true →
      jsGet (((createRecords targetObject rows req nf).1).get ⟨i, hlen⟩)
          (lit "attributes") = jsGet (rows.get ⟨i, hi⟩) (lit "attributes")) := by
  have hget : ((createRecords targetObject rows req nf).1).get ⟨i, hlen⟩ =
      formatRecord ((getObjectDetails targetObject).1) (autoNumberOf nf) req i
        (rows.get ⟨i, hi⟩) := by
    have h := formatList_get ((getObjectDetails targetObject).1) (autoNumberOf nf)
      req rows 0 i hi hlen
    rw [Nat.zero_add] at h
    exact h
  rw [hget]
  constructor
  · intro hattr
    unfold formatRecord
    rw [jsGet_spread_not_has _ _ _
      (@mutate_hasOwn_false (autoNumberOf nf) req (rows.get ⟨i, hi⟩)
        (lit "attributes") hattr hreq)]
    simp [jsGet]
  · intro hnd hattr
    unfold formatRecord
    have hm := @mutate_preserve (autoNumberOf nf) req (rows.get ⟨i, hi⟩)
      (lit "attributes") (by decide) hattr
    rw [jsGet_spread_has _ _ _ (keys_mutate_nodup hnd) hm.2, hm.1]

set_option maxRecDepth 100000 in
/-- Witness for C2 (amended) at a concrete row without an `attributes`
key: the envelope is present in the emitted record. -/
theorem createRecords_attributes_envelope_witness :
    jsGet (((createRecords (lit "Property")
          [[(lit "Name", JSVal.str (lit "Luxury Villa")),
            (lit "Price__c", JSVal.num 500000)]] [] none).1).get
        ⟨0, by decide⟩) (lit "attributes") =
      some (JSVal.attrs ((getObjectDetails (lit "Property")).1) (refId 0)) :=
  (createRecords_attributes_envelope (lit "Property")
      [[(lit "Name", JSVal.str (lit "Luxury Villa")),
        (lit "Price__c", JSVal.num 500000)]] [] none 0 (by decide) (by decide)
      (by decide)).1 (by decide)

/-- C8: for an AutoNumber object, a first row that supplies `Name` and
misses a required field is emitted with no `Name` key, the envelope
`referenceId` `ref0`, and the missing required field set to null. -/
theorem createRecords_autoNumber_scenario
    (targetObject : Str) (opts : NameFieldOptions) (req : List Str)
    (r0 : JSObj) (rest : List JSObj) (f : Str)
    (hAuto : opts.type = NameFieldType.autoNumber)
    (_hName : hasOwn r0 (lit "Name") = true)
    (hNameReq : lit "Name" ∉ req)
    (hf : f ∈ req) (hfr : hasOwn r0 f = false)
    (hAttr : hasOwn r0 (lit "attributes") = false)
    (hAttrReq : lit "attributes" ∉ req)
    (hND : (r0.map Prod.fst).Nodup) :
    ∃ o0 outRest,
      (createRecords targetObject (r0 :: rest) req (some opts)).1 = o0 :: outRest ∧
      hasOwn o0 (lit "Name") = false ∧
      jsGet o0 (lit "attributes") =
        some (JSVal.attrs ((getObjectDetails targetObject).1) (lit "ref0")) ∧
      jsGet o0 f = some JSVal.null := by
  have hauto : autoNumberOf (some opts) = true := by simp [autoNumberOf, hAuto]
  refine ⟨formatRecord ((getObjectDetails targetObject).1)
      (autoNumberOf (some opts)) req 0 r0,
    formatList ((getObjectDetails targetObject).1)
      (autoNumberOf (some opts)) req 1 rest,
    rfl, ?_, ?_, ?_⟩
  · unfold formatRecord
    rw [hasOwn_spread, hauto]
    have hne : lit "attributes" ≠ lit "Name" := by decide
    have h1 : hasOwn [(lit "attributes",
        JSVal.attrs ((getObjectDetails targetObject).1) (refId 0))]
        (lit "Name") = false := by
      simp [hasOwn, jsGet, hne]
    rw [h1, mutate_no_Name hNameReq]
    rfl
  · unfold formatRecord
    rw [jsGet_spread_not_has _ _ _
      (@mutate_hasOwn_false (autoNumberOf (some opts)) req r0
        (lit "attributes") hAttr hAttrReq)]
    have hr0 : refId 0 = lit "ref0" := by decide
    simp [jsGet, hr0]
  · unfold formatRecord
    have hnull := @mutate_jsGet_null (autoNumberOf (some opts)) req r0 f hfr hf
    have hhas : hasOwn (mutateRecord (autoNumberOf (some opts)) req r0) f = true := by
      rw [hasOwn, hnull]; rfl
    rw [jsGet_spread_has _ _ _ (keys_mutate_nodup hND) hhas, hnull]

set_option maxRecDepth 100000 in
/-- Witness for C8 at concrete inputs. -/
theorem createRecords_autoNumber_scenario_witness :
    ∃ o0 outRest,
      (createRecords (lit "Offer") [[(lit "Name", JSVal.str (lit "x"))]]
          [lit "Offer_Amount__c"]
          (some { label := lit "Offer Name", type := NameFieldType.autoNumber,
                  displayFormat := some (lit "OF-{0000}"),
                  startingNumber := some 1 })).1 = o0 :: outRest ∧
      hasOwn o0 (lit "Name") = false ∧
      jsGet o0 (lit "attributes") =
        some (JSVal.attrs ((getObjectDetails (lit "Offer")).1) (lit "ref0")) ∧
      jsGet o0 (lit "Offer_Amount__c") = some JSVal.null :=
  createRecords_autoNumber_scenario (lit "Offer")
    { label := lit "Offer Name", type := NameFieldType.autoNumber,
      displayFormat := some (lit "OF-{0000}"), startingNumber := some 1 }
    [lit "Offer_Amount__c"] [(lit "Name", JSVal.str (lit "x"))] []
    (lit "Offer_Amount__c") rfl (by decide) (by decide)
    (List.mem_singleton.mpr rfl) (by decide) (by decide) (by decide) (by decide)

/-- C9: `createRecords` leaves the caller rows mutated in place: the
second component of the model is exactly the rows after the map
callback ran on each of them, where for an AutoNumber object a supplied
`Name` has been deleted, every missing required field has gained an
explicit null, and a row hit by either mutation is no longer equal to
its original value. -/
theorem createRecords_mutates_rows
    (targetObject : Str) (rows : List JSObj) (req : List Str)
    (nf : Option NameFieldOptions)
    (hNameReq : lit "Name" ∉ req) :
    (createRecords targetObject rows req nf).2 =
      rows.map (mutateRecord (autoNumberOf nf) req) ∧
    ∀ r ∈ rows,
      ((autoNumberOf nf = true ∧ hasOwn r (lit "Name") = true) →
        hasOwn (mutateRecord (autoNumberOf nf) req r) (lit "Name") = false) ∧
      (∀ f ∈ req, hasOwn r f = false →
        jsGet (mutateRecord (autoNumberOf nf) req r) f = some JSVal.null) ∧
      (((autoNumberOf nf = true ∧ hasOwn r (lit "Name") = true) ∨
          ∃ f ∈ req, hasOwn r f = false) →
        mutateRecord (autoNumberOf nf) req r ≠ r) := by
  refine ⟨rfl, ?_⟩
  intro r _
  refine ⟨?_, ?_, ?_⟩
  · intro h
    rw [h.1]
    exact mutate_no_Name hNameReq
  · intro f hf hr
    exact @mutate_jsGet_null (autoNumberOf nf) req r f hr hf
  · intro hcase heq
    rcases hcase with ⟨ha, hname⟩ | ⟨f, hf, hr⟩
    · have h1 : hasOwn (mutateRecord (autoNumberOf nf) req r) (lit "Name") = false := by
        rw [ha]; exact mutate_no_Name hNameReq
      rw [heq] at h1
      rw [h1] at hname
      exact Bool.false_ne_true hname
    · have h1 := @mutate_jsGet_null (autoNumberOf nf) req r f hr hf
      rw [heq] at h1
      rw [jsGet_none_of_hasOwn_false hr] at h1
      exact Option.noConfusion h1

set_option maxRecDepth 100000 in
/-- Witness for C9 at a concrete input: a row missing the required
field `Price__c` is mutated, so the caller list is not left unchanged. -/
theorem createRecords_mutates_rows_witness :
    (createRecords (lit "Property") [[(lit "Name", JSVal.str (lit "x"))]]
        [lit "Price__c"] none).2 =
      [[(lit "Name", JSVal.str (lit "x"))]].map
        (mutateRecord (autoNumberOf none) [lit "Price__c"]) ∧
    mutateRecord (autoNumberOf none) [lit "Price__c"]
        [(lit "Name", JSVal.str (lit "x"))] ≠
      [(lit "Name", JSVal.str (lit "x"))] :=
  ⟨(createRecords_mutates_rows (lit "Property")
      [[(lit "Name", JSVal.str (lit "x"))]] [lit "Price__c"] none (by decide)).1,
   (((createRecords_mutates_rows (lit "Property")
        [[(lit "Name", JSVal.str (lit "x"))]] [lit "Price__c"] none (by decide)).2
      [(lit "Name", JSVal.str (lit "x"))] (List.mem_singleton.mpr rfl)).2.2
    (Or.inr ⟨lit "Price__c", List.mem_singleton.mpr rfl, by decide⟩))⟩
